import Mathlib

/-!
# go-dynamo-graph-client: graph table service and CLI glue

A shallow embedding of `pkg/table/table.go` and of the pure parts of
`cmd/dynamo/main.go`, followed by the properties established about them.

Conventions of the embedding

* A Go `map[string]*dynamodb.AttributeValue` is an association list whose keys
  are pairwise distinct; the order of the list is the (unspecified) order in
  which `range` visits the map, and `item[key]` is `List.lookup`.
* A Go pointer that may be nil is an `Option`; dereferencing nil is a run-time
  panic, and a computation that can panic returns `Option`, `none` being the
  panic.
* Go compares strings byte by byte; on valid UTF-8 this is the lexicographic
  order of the code points, which is the order used on `String.toList` here.
* `int64` values are `Int`; the code embedded here only compares them.
-/

namespace table

/-! ## Data model -/

def TargetKeyAttribute : String := "target-key"
def SourceKeyAttribute : String := "source-key"
def TimestampAttribute : String := "timestamp"
def TagAttribute : String := "tag"
def DataAttribute : String := "data"

/-- The part of `dynamodb.AttributeValue` this program reads and writes: the
string field `S`, a `*string`. -/
structure AttributeValue where
  S : Option String
deriving DecidableEq

/-- An edge record, `map[string]*dynamodb.AttributeValue`. -/
abbrev Item := List (String × Option AttributeValue)

/-- The expression `*item[key].S`: the map lookup yields nil for an absent key, and both the
field access through a nil pointer and the dereference of a nil `S` panic. -/
def derefS (item : Item) (key : String) : Option String :=
  match item.lookup key with
  | some (some av) => av.S
  | _ => none

/-! ## WriteItem -/

/-- The order `sort.Strings` sorts by. -/
def strLE (a b : String) : Prop := a.toList ≤ b.toList

instance : DecidableRel strLE := fun a b => inferInstanceAs (Decidable (a.toList ≤ b.toList))

instance : IsTotal String strLE := ⟨fun a b => le_total a.toList b.toList⟩

instance : IsTrans String strLE := ⟨fun _ _ _ h1 h2 => le_trans h1 h2⟩

instance : IsAntisymm String strLE :=
  ⟨fun _ _ h1 h2 => String.toList_inj.1 (le_antisymm h1 h2)⟩

/-- The call `sort.Strings(keys)`; the keys of a map are pairwise distinct, so
the result does not depend on the sorting algorithm. -/
def sortStrings (keys : List String) : List String :=
  keys.insertionSort strLE

/-- The guard of the first loop of `WriteItem`. -/
def isExtraKey (key : String) : Bool :=
  key != SourceKeyAttribute && key != TargetKeyAttribute

/-- The second loop of `WriteItem`:
`extra = append(extra, fmt.Sprintf("%s:%s", key, *item[key].S))`. -/
def formatExtras (item : Item) : List String → Option (List String)
  | [] => some []
  | key :: keys =>
    match derefS item key with
    | none => none
    | some v =>
      match formatExtras item keys with
      | none => none
      | some rest => some ((key ++ ":" ++ v) :: rest)

/-- The function `WriteItem` of `pkg/table/table.go`. -/
def WriteItem (item : Item) : Option String :=
  match derefS item SourceKeyAttribute, derefS item TargetKeyAttribute with
  | some source, some target =>
    let keys := sortStrings ((item.map Prod.fst).filter isExtraKey)
    match formatExtras item keys with
    | none => none
    | some extra =>
      if source = target then
        some ("[" ++ source ++ "] " ++ " ".intercalate extra)
      else
        some (source ++ " -> " ++ target ++ " " ++ " ".intercalate extra)
  | _, _ => none

/-! ## The store client adapter -/

/-- Values of Go's `error` interface that reach this program: the error kinds of
the store and the failure of input validation. -/
inductive Error where
  | AlreadyExistsError
  | NotFoundError
  | ServiceError (msg : String)
  | ValidationError (field tag : String)
deriving DecidableEq

structure AttributeDefinition where
  AttributeName : String
  AttributeType : String
deriving DecidableEq

structure KeySchemaElement where
  AttributeName : String
  KeyType : String
deriving DecidableEq

structure Projection where
  ProjectionType : String
deriving DecidableEq

structure GlobalSecondaryIndex where
  IndexName : String
  KeySchema : List KeySchemaElement
  Projection : Projection
deriving DecidableEq

/-- The fields of `dynamodb.CreateTableInput` that `Create` sets; every other
field stays nil. -/
structure CreateTableInput where
  TableName : String
  AttributeDefinitions : List AttributeDefinition
  KeySchema : List KeySchemaElement
  BillingMode : String
  GlobalSecondaryIndexes : List GlobalSecondaryIndex
deriving DecidableEq

structure DescribeTableInput where
  TableName : String
deriving DecidableEq

structure DeleteTableInput where
  TableName : String
deriving DecidableEq

/-- The fields of `dynamodb.ScanInput` that `ReadWalker` sets. -/
structure ScanInput where
  TableName : String
  Limit : Int
deriving DecidableEq

/-- The fields of `dynamodb.ScanOutput` that `ReadWalker` reads; `Count` is a
`*int64`. -/
structure ScanOutput where
  Count : Option Int
  Items : List Item
deriving DecidableEq

structure PutItemInput where
  TableName : String
  Item : Item
deriving DecidableEq

structure TableDescription where
  TableName : String
  TableStatus : String
deriving DecidableEq

structure CreateTableOutput where
  TableDescription : Option TableDescription
deriving DecidableEq

structure DescribeTableOutput where
  Table : Option TableDescription
deriving DecidableEq

structure DeleteTableOutput where
  TableDescription : Option TableDescription
deriving DecidableEq

structure PutItemOutput where
  Attributes : Item
deriving DecidableEq

def BillingModePayPerRequest : String := "PAY_PER_REQUEST"
def ProjectionTypeKeysOnly : String := "KEYS_ONLY"

/-- A Go result pair `(*Output, error)`. -/
abbrev Ret (α : Type) := Option α × Option Error

/-- The `Service` interface. An implementation acts on its own state `σ`. The
page function handed to `ScanPages` is a closure over caller state `κ` and may
panic, in which case the whole call panics. -/
structure Service (σ : Type) where
  CreateTable : CreateTableInput → σ → Ret CreateTableOutput × σ
  DescribeTable : DescribeTableInput → σ → Ret DescribeTableOutput × σ
  DeleteTable : DeleteTableInput → σ → Ret DeleteTableOutput × σ
  ScanPages : {κ : Type} → ScanInput → (ScanOutput → Bool → κ → Option (Bool × κ)) →
    σ → κ → Option (Option Error × σ × κ)
  PutItem : PutItemInput → σ → Ret PutItemOutput × σ

/-- The `Table` wrapper: a name bound to an adapter. -/
structure Table (σ : Type) where
  Name : String
  svc : Service σ

/-! ## Lifecycle operations -/

/-- The method `Table.Exists`. -/
def Table.Exists {σ : Type} (t : Table σ) (s : σ) : Bool × σ :=
  let r := t.svc.DescribeTable { TableName := t.Name } s
  (r.1.2.isNone, r.2)

/-- The method `Table.Create`. -/
def Table.Create {σ : Type} (t : Table σ) (s : σ) : Ret CreateTableOutput × σ :=
  t.svc.CreateTable
    { TableName := t.Name
      AttributeDefinitions :=
        [ { AttributeName := SourceKeyAttribute, AttributeType := "S" },
          { AttributeName := TargetKeyAttribute, AttributeType := "S" } ]
      KeySchema :=
        [ { AttributeName := SourceKeyAttribute, KeyType := "HASH" },
          { AttributeName := TargetKeyAttribute, KeyType := "RANGE" } ]
      BillingMode := BillingModePayPerRequest
      GlobalSecondaryIndexes :=
        [ { IndexName := "reverse-search"
            KeySchema :=
              [ { AttributeName := TargetKeyAttribute, KeyType := "HASH" },
                { AttributeName := SourceKeyAttribute, KeyType := "RANGE" } ]
            Projection := { ProjectionType := ProjectionTypeKeysOnly } } ] }
    s

/-- The method `Table.Delete`. -/
def Table.Delete {σ : Type} (t : Table σ) (s : σ) : Ret DeleteTableOutput × σ :=
  t.svc.DeleteTable { TableName := t.Name } s

/-- The method `Table.Put`. -/
def Table.Put {σ : Type} (t : Table σ) (item : Item) (s : σ) : Ret PutItemOutput × σ :=
  t.svc.PutItem { TableName := t.Name, Item := item } s

/-! ## The read walk -/

/-- The struct `ReadWalkerInput`; the struct tag of `PageSize` is `validate:"gte=0,lte=1000"`. -/
structure ReadWalkerInput where
  PageSize : Int
deriving DecidableEq

structure ReadWalkerOutput where
  Count : Int
  Items : List Item
deriving DecidableEq

/-- The method `ReadWalkerInput.Limit`. -/
def ReadWalkerInput.Limit (rwi : ReadWalkerInput) : Int :=
  if rwi.PageSize ≠ 0 then rwi.PageSize else 100

/-- Modelled from the spec: `common.Validate`, the validator instance of the
package `pkg/common`, is not part of the sources at hand. `Struct` checks the
rules of the struct tag `gte=0,lte=1000` on `PageSize` in the order written and
reports the first rule that fails ("Validate pageSizeConfig is in [0, 1000];
fail with ValidationError otherwise"). -/
def Validate.Struct (input : ReadWalkerInput) : Option Error :=
  if input.PageSize < 0 then some (Error.ValidationError "PageSize" "gte")
  else if input.PageSize > 1000 then some (Error.ValidationError "PageSize" "lte")
  else none

/-- The page function `ReadWalker` hands to `ScanPages`:
`walk(ReadWalkerOutput{Count: *so.Count, Items: so.Items}, b)`. -/
def pageFn {κ : Type} (walk : ReadWalkerOutput → Bool → κ → Bool × κ)
    (so : ScanOutput) (b : Bool) (k : κ) : Option (Bool × κ) :=
  match so.Count with
  | none => none
  | some c => some (walk { Count := c, Items := so.Items } b k)

/-- The method `Table.ReadWalker`. The result is the returned error together with the
adapter state and the callback state afterwards. -/
def Table.ReadWalker {σ κ : Type} (t : Table σ) (input : ReadWalkerInput)
    (walk : ReadWalkerOutput → Bool → κ → Bool × κ) (s : σ) (k : κ) :
    Option (Option Error × σ × κ) :=
  match Validate.Struct input with
  | some err => some (some err, s, k)
  | none =>
    t.svc.ScanPages { TableName := t.Name, Limit := input.Limit } (pageFn walk) s k

/-! ## Test doubles

Instrumentation used to observe the calls a table operation makes. -/

/-- One call on the adapter, with the request it carried. -/
inductive Call where
  | CreateTable (input : CreateTableInput)
  | DescribeTable (input : DescribeTableInput)
  | DeleteTable (input : DeleteTableInput)
  | ScanPages (input : ScanInput)
  | PutItem (input : PutItemInput)
deriving DecidableEq

/-- Wraps an adapter so that every call is appended to a log before its result
is passed through unchanged. -/
def recording {σ : Type} (svc : Service σ) : Service (σ × List Call) where
  CreateTable := fun i s =>
    let r := svc.CreateTable i s.1
    (r.1, (r.2, s.2 ++ [Call.CreateTable i]))
  DescribeTable := fun i s =>
    let r := svc.DescribeTable i s.1
    (r.1, (r.2, s.2 ++ [Call.DescribeTable i]))
  DeleteTable := fun i s =>
    let r := svc.DeleteTable i s.1
    (r.1, (r.2, s.2 ++ [Call.DeleteTable i]))
  ScanPages := fun i fn s k =>
    (svc.ScanPages i fn s.1 k).map
      (fun r => (r.1, (r.2.1, s.2 ++ [Call.ScanPages i]), r.2.2))
  PutItem := fun i s =>
    let r := svc.PutItem i s.1
    (r.1, (r.2, s.2 ++ [Call.PutItem i]))

/-- One invocation of the walk callback: its arguments and what it returned. -/
structure Invocation where
  rwo : ReadWalkerOutput
  isLastPage : Bool
  returned : Bool
deriving DecidableEq

/-- Wraps a walk callback so that every invocation is appended to a log. -/
def recordingWalk {κ : Type} (walk : ReadWalkerOutput → Bool → κ → Bool × κ) :
    ReadWalkerOutput → Bool → κ × List Invocation → Bool × (κ × List Invocation) :=
  fun rwo b k =>
    let r := walk rwo b k.1
    (r.1, (r.2, k.2 ++ [{ rwo := rwo, isLastPage := b, returned := r.1 }]))

/-- Pagination as the store client performs it: the page function is called
on each page in turn, with the flag set on the final page only, until it
returns false or the pages are exhausted. -/
def scanPagesLoop {κ : Type} (fn : ScanOutput → Bool → κ → Option (Bool × κ)) :
    List ScanOutput → κ → Option κ
  | [], k => some k
  | [page], k =>
    match fn page true k with
    | none => none
    | some r => some r.2
  | page :: next :: rest, k =>
    match fn page false k with
    | none => none
    | some (true, k1) => scanPagesLoop fn (next :: rest) k1
    | some (false, k1) => some k1

/-- State of the in-memory store: the tables present, the pages a scan
delivers, and the records put so far. -/
structure FakeStore where
  tables : List String
  pages : List ScanOutput
  puts : List PutItemInput
deriving DecidableEq

/-- An in-memory adapter following the operation contracts of the store:
describe and delete fail with `NotFoundError` on an absent table, create fails
with `AlreadyExistsError` on a present one, scan paginates. -/
def fakeService : Service FakeStore where
  CreateTable := fun i s =>
    if i.TableName ∈ s.tables then ((none, some Error.AlreadyExistsError), s)
    else
      ((some { TableDescription := some { TableName := i.TableName, TableStatus := "ACTIVE" } },
        none), { s with tables := i.TableName :: s.tables })
  DescribeTable := fun i s =>
    if i.TableName ∈ s.tables then
      ((some { Table := some { TableName := i.TableName, TableStatus := "ACTIVE" } }, none), s)
    else ((none, some Error.NotFoundError), s)
  DeleteTable := fun i s =>
    if i.TableName ∈ s.tables then
      ((some { TableDescription := some { TableName := i.TableName, TableStatus := "DELETING" } },
        none), { s with tables := s.tables.filter (fun n => n != i.TableName) })
    else ((none, some Error.NotFoundError), s)
  ScanPages := fun i fn s k =>
    if i.TableName ∈ s.tables then
      (scanPagesLoop fn s.pages k).map (fun k1 => (none, s, k1))
    else some (some Error.NotFoundError, s, k)
  PutItem := fun i s =>
    if i.TableName ∈ s.tables then
      ((some { Attributes := [] }, none), { s with puts := s.puts ++ [i] })
    else ((none, some Error.NotFoundError), s)

/-- An adapter that finds every table and answers every `CreateTable` with one
fixed result, whatever the state of the table. -/
def scriptedService (createAnswer : Ret CreateTableOutput) : Service Unit where
  CreateTable := fun _ s => (createAnswer, s)
  DescribeTable := fun i s =>
    ((some { Table := some { TableName := i.TableName, TableStatus := "ACTIVE" } }, none), s)
  DeleteTable := fun i s =>
    ((some { TableDescription := some { TableName := i.TableName, TableStatus := "DELETING" } },
      none), s)
  ScanPages := fun _ _ s k => some (none, s, k)
  PutItem := fun _ s => ((some { Attributes := [] }, none), s)

end table

/-! ## The command-line tool (`cmd/dynamo/main.go`) -/

namespace dynamo

open table

/-- The loop of `IndexOf` from position `i` on. -/
def IndexOfFrom (item : String) : List String → Nat → Int
  | [], _ => -1
  | data :: rest, i => if data = item then (i : Int) else IndexOfFrom item rest (i + 1)

/-- The function `IndexOf`. -/
def IndexOf (slice : List String) (item : String) : Int :=
  IndexOfFrom item slice 0

/-- A slice index expression `xs[i]` with an `int` index; out of range panics. -/
def index {α : Type} (xs : List α) (i : Int) : Option α :=
  if i < 0 then none else xs[i.toNat]?

/-- The map assignment `m[key] = v`. -/
def mapSet (m : Item) (key : String) (v : Option AttributeValue) : Item :=
  match m with
  | [] => [(key, v)]
  | (k, x) :: rest => if k = key then (key, v) :: rest else (k, x) :: mapSet rest key v

/-- The inner loop of the load command over the fields of one record, from
position `i` on: every field outside the two designated columns is stored
under its header name. -/
def loadExtras (headers : List String) (sourceIndex targetIndex : Int) :
    List String → Nat → Item → Option Item
  | [], _, item => some item
  | value :: rest, i, item =>
    if (i : Int) ≠ sourceIndex ∧ (i : Int) ≠ targetIndex then
      match headers[i]? with
      | none => none
      | some header =>
        loadExtras headers sourceIndex targetIndex rest (i + 1)
          (mapSet item header (some { S := some value }))
    else loadExtras headers sourceIndex targetIndex rest (i + 1) item

/-- The record the load command builds for one CSV row and hands to `Put`. -/
def loadItem (headers record : List String) : Option Item :=
  let sourceIndex := IndexOf headers "source"
  let targetIndex := IndexOf headers "target"
  match index record sourceIndex, index record targetIndex with
  | some source, some target =>
    loadExtras headers sourceIndex targetIndex record 0
      [ (SourceKeyAttribute, some { S := some source }),
        (TargetKeyAttribute, some { S := some target }) ]
  | _, _ => none

/-- The call `bufio.Reader.ReadString(delim)` on the pending input: the text up to and
including the first `delim`, whether an error (end of input before `delim`)
is reported, and the input left over. -/
def ReadString (delim : Char) : List Char → List Char × Bool × List Char
  | [] => ([], true, [])
  | c :: cs =>
    if c = delim then ([c], false, cs)
    else
      let r := ReadString delim cs
      (c :: r.1, r.2.1, r.2.2)

/-- The function `strings.ToLower` on the ASCII letters. Go also folds the upper-case letters
outside ASCII; on ASCII text the two agree. -/
def ToLower (s : String) : String :=
  String.mk (s.data.map Char.toLower)

/-- The method `Input.Confirm` on the pending standard input. `none` is `log.Fatal`, which
ends the process; otherwise the answer and the input left over. The prompt
written to standard output is not modelled. -/
def Confirm (_message : String) (stdin : List Char) : Option (Bool × List Char) :=
  let r := ReadString '\n' stdin
  if r.2.1 then none
  else
    let lower := ToLower (String.mk r.1)
    some (lower == "y" || lower == "yes", r.2.2)

/-- The action of the `init` command on a table: the returned error, the
adapter state and the input left over; `none` when the process is ended by
`log.Fatal`. -/
def initAction {σ : Type} (t : Table σ) (s : σ) (stdin : List Char) :
    Option (Option Error × σ × List Char) :=
  let e := t.Exists s
  if e.1 then
    match Confirm
        ("Table '" ++ t.Name ++ "' already exists, would you like to delete and replace it?")
        stdin with
    | none => none
    | some (true, rest) =>
      let d := t.Delete e.2
      match d.1.2 with
      | some err => some (some err, d.2, rest)
      | none =>
        let c := t.Create d.2
        some (c.1.2, c.2, rest)
    | some (false, rest) => some (none, e.2, rest)
  else
    let c := t.Create e.2
    some (c.1.2, c.2, stdin)

end dynamo

/-! # Properties -/

namespace table

/-! ## Association lists with distinct keys -/

theorem lookup_eq_of_mem {β : Type} (l : List (String × β)) (hnd : (l.map Prod.fst).Nodup)
    (k : String) (v : β) (hm : (k, v) ∈ l) : l.lookup k = some v := by
  induction l with
  | nil => simp at hm
  | cons p rest ih =>
    obtain ⟨k0, v0⟩ := p
    simp only [List.map_cons, List.nodup_cons] at hnd
    rcases List.mem_cons.1 hm with h | h
    · cases h
      simp [List.lookup]
    · have hne : k ≠ k0 := by
        intro e
        subst e
        exact hnd.1 (List.mem_map_of_mem Prod.fst h)
      have hb : (k == k0) = false := by simpa using hne
      simp only [List.lookup, hb]
      exact ih hnd.2 h

theorem lookup_eq_of_perm {β : Type} (a b : List (String × β)) (hp : a.Perm b)
    (hnd : (a.map Prod.fst).Nodup) (k : String) : a.lookup k = b.lookup k := by
  have hndb : (b.map Prod.fst).Nodup := (hp.map Prod.fst).nodup_iff.1 hnd
  cases hb : b.lookup k with
  | some v =>
    have hm : (k, v) ∈ b := by
      clear hndb hp
      induction b with
      | nil => simp at hb
      | cons p rest ih =>
        obtain ⟨k0, v0⟩ := p
        by_cases e : k = k0
        · subst e
          simp [List.lookup] at hb
          subst hb
          simp
        · have hf : (k == k0) = false := by simpa using e
          simp only [List.lookup, hf] at hb
          exact List.mem_cons_of_mem _ (ih hb)
    exact lookup_eq_of_mem a hnd k v (hp.mem_iff.2 hm)
  | none =>
    cases ha : a.lookup k with
    | none => rfl
    | some v =>
      exfalso
      have hm : (k, v) ∈ a := by
        clear hnd hp
        induction a with
        | nil => simp at ha
        | cons p rest ih =>
          obtain ⟨k0, v0⟩ := p
          by_cases e : k = k0
          · subst e
            simp [List.lookup] at ha
            subst ha
            simp
          · have hf : (k == k0) = false := by simpa using e
            simp only [List.lookup, hf] at ha
            exact List.mem_cons_of_mem _ (ih ha)
      have := lookup_eq_of_mem b hndb k v (hp.mem_iff.1 hm)
      rw [hb] at this
      cases this

/-! ## Sorting -/

theorem sortStrings_eq_of_sorted_perm (keys l : List String) (hp : l.Perm keys)
    (hs : l.Sorted strLE) : sortStrings keys = l :=
  List.eq_of_perm_of_sorted ((List.perm_insertionSort strLE keys).trans hp.symm)
    (List.sorted_insertionSort strLE keys) hs

theorem sortStrings_perm (a b : List String) (hp : a.Perm b) :
    sortStrings a = sortStrings b :=
  sortStrings_eq_of_sorted_perm a (sortStrings b)
    ((List.perm_insertionSort strLE b).trans hp.symm) (List.sorted_insertionSort strLE b)

/-! ## WriteItem -/

theorem derefS_eq_of_mem (item : Item) (hnd : (item.map Prod.fst).Nodup) (k v : String)
    (hm : (k, some (AttributeValue.mk (some v))) ∈ item) : derefS item k = some v := by
  unfold derefS
  rw [lookup_eq_of_mem item hnd k _ hm]

theorem derefS_eq_of_perm (a b : Item) (hp : a.Perm b) (hnd : (a.map Prod.fst).Nodup)
    (k : String) : derefS a k = derefS b k := by
  unfold derefS
  rw [lookup_eq_of_perm a b hp hnd k]

theorem formatExtras_of_entries (item : Item) (hnd : (item.map Prod.fst).Nodup)
    (es : List (String × String))
    (hm : ∀ e ∈ es, (e.1, some (AttributeValue.mk (some e.2))) ∈ item) :
    formatExtras item (es.map Prod.fst) = some (es.map fun e => e.1 ++ ":" ++ e.2) := by
  induction es with
  | nil => rfl
  | cons e rest ih =>
    have h1 := derefS_eq_of_mem item hnd e.1 e.2 (hm e (List.mem_cons_self _ _))
    have h2 := ih (fun x hx => hm x (List.mem_cons_of_mem _ hx))
    simp only [List.map_cons, formatExtras, h1, h2]

theorem formatExtras_congr (a b : Item) (h : ∀ k, derefS a k = derefS b k)
    (keys : List String) : formatExtras a keys = formatExtras b keys := by
  induction keys with
  | nil => rfl
  | cons k rest ih => simp only [formatExtras, h k, ih]

theorem formatExtras_isSome (item : Item) (keys : List String)
    (h : ∀ k ∈ keys, ∃ v, derefS item k = some v) :
    ∃ extra, formatExtras item keys = some extra := by
  induction keys with
  | nil => exact ⟨[], rfl⟩
  | cons k rest ih =>
    obtain ⟨v, hv⟩ := h k (List.mem_cons_self _ _)
    obtain ⟨l, hl⟩ := ih (fun x hx => h x (List.mem_cons_of_mem _ hx))
    exact ⟨(k ++ ":" ++ v) :: l, by simp only [formatExtras, hv, hl]⟩

theorem derefS_eq_of_lookup (item : Item) (k v : String)
    (h : item.lookup k = some (some (AttributeValue.mk (some v)))) : derefS item k = some v := by
  unfold derefS
  rw [h]

/-- C1. For a record with pairwise distinct keys, whose source-key holds the
string `source`, whose target-key holds the string `target`, and whose
attributes other than these two are exactly the string-valued pairs `es`, listed
in strictly ascending lexicographic key order: `WriteItem` returns
`"[" + source + "] " + E` when `source = target` and
`source + " -> " + target + " " + E` otherwise, where `E` joins the strings
`key:value` of `es` with single spaces. With no extra attribute the result ends
in the one space that precedes `E`. -/
theorem WriteItem_renders_sorted_extras (item : Item) (source target : String)
    (es : List (String × String))
    (hnd : (item.map Prod.fst).Nodup)
    (hs : item.lookup SourceKeyAttribute = some (some (AttributeValue.mk (some source))))
    (ht : item.lookup TargetKeyAttribute = some (some (AttributeValue.mk (some target))))
    (hperm : (es.map fun e => (e.1, some (AttributeValue.mk (some e.2)))).Perm
      (item.filter fun kv => isExtraKey kv.1))
    (hsorted : es.Pairwise (fun x y => x.1.toList < y.1.toList)) :
    WriteItem item = some
        (if source = target then
          "[" ++ source ++ "] " ++ " ".intercalate (es.map fun e => e.1 ++ ":" ++ e.2)
        else
          source ++ " -> " ++ target ++ " " ++ " ".intercalate (es.map fun e => e.1 ++ ":" ++ e.2))
      ∧ (es = [] → WriteItem item = some
          (if source = target then "[" ++ source ++ "] " else source ++ " -> " ++ target ++ " ")) := by
  have hkeys : (es.map Prod.fst).Perm ((item.map Prod.fst).filter isExtraKey) := by
    have h := hperm.map Prod.fst
    simp only [List.map_map] at h
    have e1 : (Prod.fst ∘ fun e : String × String =>
        (e.1, some (AttributeValue.mk (some e.2)))) = Prod.fst := rfl
    rw [e1] at h
    rw [List.filter_map]
    exact h
  have hsrt : (es.map Prod.fst).Sorted strLE := by
    unfold List.Sorted
    rw [List.pairwise_map]
    exact hsorted.imp (fun h => le_of_lt h)
  have hsort := sortStrings_eq_of_sorted_perm _ _ hkeys hsrt
  have hmem : ∀ e ∈ es, (e.1, some (AttributeValue.mk (some e.2))) ∈ item := by
    intro e he
    have : (e.1, some (AttributeValue.mk (some e.2))) ∈
        item.filter fun kv => isExtraKey kv.1 :=
      hperm.mem_iff.1 (List.mem_map_of_mem _ he)
    exact (List.mem_filter.1 this).1
  have hfmt := formatExtras_of_entries item hnd es hmem
  have main : WriteItem item = some
        (if source = target then
          "[" ++ source ++ "] " ++ " ".intercalate (es.map fun e => e.1 ++ ":" ++ e.2)
        else
          source ++ " -> " ++ target ++ " " ++ " ".intercalate (es.map fun e => e.1 ++ ":" ++ e.2)) := by
    unfold WriteItem
    simp only [derefS_eq_of_lookup item _ _ hs, derefS_eq_of_lookup item _ _ ht, hsort, hfmt]
    split <;> rfl
  refine ⟨main, ?_⟩
  intro he
  rw [main, he]
  simp [String.intercalate]

/-- C1, on the edge A -> B carrying tag:x and data:y. -/
theorem WriteItem_renders_sorted_extras_witness :
    WriteItem [("tag", some ⟨some "x"⟩), ("source-key", some ⟨some "A"⟩),
        ("data", some ⟨some "y"⟩), ("target-key", some ⟨some "B"⟩)]
      = some "A -> B data:y tag:x" :=
  (WriteItem_renders_sorted_extras
    [("tag", some ⟨some "x"⟩), ("source-key", some ⟨some "A"⟩),
      ("data", some ⟨some "y"⟩), ("target-key", some ⟨some "B"⟩)]
    "A" "B" [("data", "y"), ("tag", "x")]
    (by decide) (by decide) (by decide) (by decide) (by decide)).1

/-- C2. Two records that hold the same key/value pairs in different orders
(keys pairwise distinct, source-key, target-key and every other attribute
string-valued) are rendered by `WriteItem` to one and the same string. -/
theorem WriteItem_order_independent (a b : Item) (source target : String)
    (hperm : a.Perm b)
    (hnd : (a.map Prod.fst).Nodup)
    (hs : a.lookup SourceKeyAttribute = some (some (AttributeValue.mk (some source))))
    (ht : a.lookup TargetKeyAttribute = some (some (AttributeValue.mk (some target))))
    (hstr : ∀ kv ∈ a, ∃ v, kv.2 = some (AttributeValue.mk (some v))) :
    ∃ out, WriteItem a = some out ∧ WriteItem b = some out := by
  have hd : ∀ k, derefS a k = derefS b k := derefS_eq_of_perm a b hperm hnd
  have hk : sortStrings ((a.map Prod.fst).filter isExtraKey)
      = sortStrings ((b.map Prod.fst).filter isExtraKey) :=
    sortStrings_perm _ _ ((hperm.map Prod.fst).filter _)
  have heq : WriteItem a = WriteItem b := by
    unfold WriteItem
    simp only [← hd, ← hk, formatExtras_congr a b hd]
  have hall : ∀ k ∈ sortStrings ((a.map Prod.fst).filter isExtraKey),
      ∃ v, derefS a k = some v := by
    intro k hkm
    have h1 : k ∈ (a.map Prod.fst).filter isExtraKey :=
      (List.perm_insertionSort strLE _).mem_iff.1 hkm
    have h2 : k ∈ a.map Prod.fst := (List.mem_filter.1 h1).1
    obtain ⟨kv, hkv, rfl⟩ := List.mem_map.1 h2
    obtain ⟨v, hv⟩ := hstr kv hkv
    refine ⟨v, derefS_eq_of_mem a hnd kv.1 v ?_⟩
    rw [← hv]
    exact hkv
  obtain ⟨extra, hex⟩ := formatExtras_isSome a _ hall
  have hsome : ∃ out, WriteItem a = some out := by
    unfold WriteItem
    simp only [derefS_eq_of_lookup a _ _ hs, derefS_eq_of_lookup a _ _ ht, hex]
    split
    · exact ⟨_, rfl⟩
    · exact ⟨_, rfl⟩
  obtain ⟨out, ho⟩ := hsome
  exact ⟨out, ho, heq ▸ ho⟩

/-- C2, on the extras tag:x, data:y listed in both orders. -/
theorem WriteItem_order_independent_witness :
    ∃ out,
      WriteItem [("source-key", some ⟨some "A"⟩), ("target-key", some ⟨some "B"⟩),
          ("tag", some ⟨some "x"⟩), ("data", some ⟨some "y"⟩)] = some out ∧
      WriteItem [("source-key", some ⟨some "A"⟩), ("target-key", some ⟨some "B"⟩),
          ("data", some ⟨some "y"⟩), ("tag", some ⟨some "x"⟩)] = some out :=
  WriteItem_order_independent
    [("source-key", some ⟨some "A"⟩), ("target-key", some ⟨some "B"⟩),
      ("tag", some ⟨some "x"⟩), ("data", some ⟨some "y"⟩)]
    [("source-key", some ⟨some "A"⟩), ("target-key", some ⟨some "B"⟩),
      ("data", some ⟨some "y"⟩), ("tag", some ⟨some "x"⟩)]
    "A" "B" (by decide) (by decide) (by decide) (by decide)
    (by
      intro kv hkv
      simp only [List.mem_cons, List.mem_singleton, List.not_mem_nil, or_false] at hkv
      rcases hkv with rfl | rfl | rfl | rfl <;> exact ⟨_, rfl⟩)

/-! ## Lifecycle operations -/

/-- C6. `Exists` returns true if and only if the adapter's `DescribeTable` for
the table's name returns no error, and the calls it makes on the adapter are
exactly that one `DescribeTable`. -/
theorem Exists_iff_describe_succeeds {σ : Type} (svc : Service σ) (name : String) (s : σ)
    (calls : List Call) :
    ((Table.Exists { Name := name, svc := recording svc } (s, calls)).1 = true
        ↔ (svc.DescribeTable { TableName := name } s).1.2 = none)
      ∧ (Table.Exists { Name := name, svc := recording svc } (s, calls)).2
        = ((svc.DescribeTable { TableName := name } s).2,
            calls ++ [Call.DescribeTable { TableName := name }]) := by
  constructor
  · simp only [Table.Exists, recording]
    cases (svc.DescribeTable { TableName := name } s).1.2 <;> simp
  · rfl

/-- C7. The one call `Create` makes on the adapter is a `CreateTable` whose
schema carries the table's name, declares source-key and target-key as string
attributes, keys the table by source-key (HASH) and target-key (RANGE), has the
single global secondary index reverse-search keyed by target-key (HASH) and
source-key (RANGE) with a KEYS_ONLY projection, and bills PAY_PER_REQUEST. -/
theorem Create_sends_graph_schema {σ : Type} (svc : Service σ) (name : String) (s : σ)
    (calls : List Call) :
    ∃ input gsi,
      (Table.Create { Name := name, svc := recording svc } (s, calls)).2.2
          = calls ++ [Call.CreateTable input]
        ∧ input.TableName = name
        ∧ input.AttributeDefinitions
            = [{ AttributeName := "source-key", AttributeType := "S" },
               { AttributeName := "target-key", AttributeType := "S" }]
        ∧ input.KeySchema
            = [{ AttributeName := "source-key", KeyType := "HASH" },
               { AttributeName := "target-key", KeyType := "RANGE" }]
        ∧ input.GlobalSecondaryIndexes = [gsi]
        ∧ gsi.IndexName = "reverse-search"
        ∧ gsi.KeySchema
            = [{ AttributeName := "target-key", KeyType := "HASH" },
               { AttributeName := "source-key", KeyType := "RANGE" }]
        ∧ gsi.Projection.ProjectionType = "KEYS_ONLY"
        ∧ input.BillingMode = "PAY_PER_REQUEST" :=
  ⟨_, _, rfl, rfl, rfl, rfl, rfl, rfl, rfl, rfl, rfl⟩

/-- C8, as stated, fails: on an adapter that finds the table "graph" and answers
`CreateTable` with a service error, `Create` returns that service error, which
is not `AlreadyExistsError`. -/
theorem Create_present_table_other_error :
    (Table.Exists
        { Name := "graph",
          svc := scriptedService (none, some (Error.ServiceError "throttled")) } ()).1 = true
      ∧ (Table.Create
          { Name := "graph",
            svc := scriptedService (none, some (Error.ServiceError "throttled")) } ()).1.2
        = some (Error.ServiceError "throttled")
      ∧ (Table.Create
          { Name := "graph",
            svc := scriptedService (none, some (Error.ServiceError "throttled")) } ()).1.2
        ≠ some Error.AlreadyExistsError := by
  decide

/-- On an adapter that finds the table "graph" and lets `CreateTable` succeed all
the same, `Create` succeeds: it makes no existence check of its own. -/
theorem Create_present_table_lenient :
    (Table.Exists
        { Name := "graph",
          svc := scriptedService
            (some { TableDescription := some { TableName := "graph", TableStatus := "ACTIVE" } },
              none) } ()).1 = true
      ∧ (Table.Create
          { Name := "graph",
            svc := scriptedService
              (some { TableDescription := some { TableName := "graph", TableStatus := "ACTIVE" } },
                none) } ()).1.2 = none := by
  decide

/-- C8, amended. On every adapter and in every state, `Create`, `Delete` and
`Put` each make exactly one adapter call, for the table's name, and return
that call's output and error unchanged: `Create` returns an error exactly when
`CreateTable` reports it, and the same error. On the in-memory store, which
answers `CreateTable` for a present table with `AlreadyExistsError`, `Create`
against a present table returns `AlreadyExistsError` after that one call and
leaves the store as it was. -/
theorem lifecycle_errors_propagate {σ : Type} (svc : Service σ) (name : String) (item : Item)
    (s : σ) (calls : List Call) (store : FakeStore) :
    (∃ input : CreateTableInput, input.TableName = name ∧
        Table.Create { Name := name, svc := recording svc } (s, calls)
          = ((svc.CreateTable input s).1,
              ((svc.CreateTable input s).2, calls ++ [Call.CreateTable input]))
        ∧ (∀ e, (Table.Create { Name := name, svc := recording svc } (s, calls)).1.2 = some e
            ↔ (svc.CreateTable input s).1.2 = some e)
        ∧ ((Table.Create { Name := name, svc := recording svc } (s, calls)).1.2 = none
            ↔ (svc.CreateTable input s).1.2 = none))
      ∧ Table.Delete { Name := name, svc := recording svc } (s, calls)
          = ((svc.DeleteTable { TableName := name } s).1,
              ((svc.DeleteTable { TableName := name } s).2,
                calls ++ [Call.DeleteTable { TableName := name }]))
      ∧ Table.Put { Name := name, svc := recording svc } item (s, calls)
          = ((svc.PutItem { TableName := name, Item := item } s).1,
              ((svc.PutItem { TableName := name, Item := item } s).2,
                calls ++ [Call.PutItem { TableName := name, Item := item }]))
      ∧ (name ∈ store.tables →
          (Table.Exists { Name := name, svc := fakeService } store).1 = true
            ∧ ∃ input : CreateTableInput, input.TableName = name ∧
                Table.Create { Name := name, svc := recording fakeService } (store, calls)
                  = ((none, some Error.AlreadyExistsError),
                      (store, calls ++ [Call.CreateTable input]))) := by
  have pass : ∀ {τ : Type} (adapter : Service τ) (st : τ),
      ∃ input : CreateTableInput, input.TableName = name ∧
        Table.Create { Name := name, svc := recording adapter } (st, calls)
          = ((adapter.CreateTable input st).1,
              ((adapter.CreateTable input st).2, calls ++ [Call.CreateTable input])) :=
    fun adapter st => ⟨_, by rfl, rfl⟩
  refine ⟨?_, rfl, rfl, ?_⟩
  · obtain ⟨input, hname, heq⟩ := pass svc s
    refine ⟨input, hname, heq, fun e => ?_, ?_⟩
    · rw [heq]
    · rw [heq]
  · intro hmem
    refine ⟨by simp [Table.Exists, fakeService, hmem], ?_⟩
    obtain ⟨input, hname, heq⟩ := pass fakeService store
    refine ⟨input, hname, ?_⟩
    rw [heq]
    simp [fakeService, hname, hmem]

/-- C8 amended, on the in-memory store holding the table "graph". -/
theorem lifecycle_errors_propagate_witness :
    (Table.Exists { Name := "graph", svc := fakeService }
        { tables := ["graph"], pages := [], puts := [] }).1 = true
      ∧ ∃ input : CreateTableInput, input.TableName = "graph" ∧
          Table.Create { Name := "graph", svc := recording fakeService }
              ({ tables := ["graph"], pages := [], puts := [] }, [])
            = ((none, some Error.AlreadyExistsError),
                ({ tables := ["graph"], pages := [], puts := [] },
                  [] ++ [Call.CreateTable input])) :=
  (lifecycle_errors_propagate fakeService "graph" []
    { tables := ["graph"], pages := [], puts := [] } []
    { tables := ["graph"], pages := [], puts := [] }).2.2.2 (by decide)

/-! ## The read walk -/

/-- C3. For a page size below 0 or above 1000 `ReadWalker` returns a validation
error, the adapter has received no call and the callback has not been invoked;
for a page size from 0 to 1000 validation passes and `ReadWalker` is exactly
one `ScanPages` call on the adapter. -/
theorem ReadWalker_validates_page_size {σ κ : Type} (svc : Service σ) (name : String)
    (pageSize : Int) (walk : ReadWalkerOutput → Bool → κ → Bool × κ)
    (s : σ) (calls : List Call) (k : κ) (log : List Invocation) :
    ((pageSize < 0 ∨ 1000 < pageSize) →
        ∃ field tag,
          Table.ReadWalker { Name := name, svc := recording svc } { PageSize := pageSize }
              (recordingWalk walk) (s, calls) (k, log)
            = some (some (Error.ValidationError field tag), (s, calls), (k, log)))
      ∧ ((0 ≤ pageSize ∧ pageSize ≤ 1000) →
        Validate.Struct { PageSize := pageSize } = none ∧
        Table.ReadWalker { Name := name, svc := recording svc } { PageSize := pageSize }
            (recordingWalk walk) (s, calls) (k, log)
          = (svc.ScanPages
                { TableName := name, Limit := ReadWalkerInput.Limit { PageSize := pageSize } }
                (pageFn (recordingWalk walk)) s (k, log)).map
              (fun r => (r.1, (r.2.1, calls ++ [Call.ScanPages
                { TableName := name, Limit := ReadWalkerInput.Limit { PageSize := pageSize } }]),
                r.2.2))) := by
  constructor
  · intro h
    rcases h with h | h
    · exact ⟨"PageSize", "gte", by simp [Table.ReadWalker, Validate.Struct, h]⟩
    · have h0 : ¬ pageSize < 0 := by omega
      exact ⟨"PageSize", "lte", by simp [Table.ReadWalker, Validate.Struct, h0, h]⟩
  · intro h
    have h0 : ¬ pageSize < 0 := by omega
    have h1 : ¬ pageSize > 1000 := by omega
    have hv : Validate.Struct { PageSize := pageSize } = none := by
      simp [Validate.Struct, h0, h1]
    refine ⟨hv, ?_⟩
    simp only [Table.ReadWalker, hv, recording]

/-- C3, on the in-memory store: page size 1001 is refused without a call, page
size 1000 scans once. -/
theorem ReadWalker_validates_page_size_witness :
    (∃ field tag,
      Table.ReadWalker { Name := "graph", svc := recording fakeService } { PageSize := 1001 }
          (recordingWalk (fun _ _ (n : Nat) => (true, n + 1)))
          ({ tables := ["graph"], pages := [{ Count := some 0, Items := [] }], puts := [] }, [])
          (0, [])
        = some (some (Error.ValidationError field tag),
            ({ tables := ["graph"], pages := [{ Count := some 0, Items := [] }], puts := [] }, []),
            (0, [])))
      ∧ Table.ReadWalker { Name := "graph", svc := recording fakeService } { PageSize := 1000 }
          (recordingWalk (fun _ _ (n : Nat) => (true, n + 1)))
          ({ tables := ["graph"], pages := [{ Count := some 0, Items := [] }], puts := [] }, [])
          (0, [])
        = some (none,
            ({ tables := ["graph"], pages := [{ Count := some 0, Items := [] }], puts := [] },
              [Call.ScanPages { TableName := "graph", Limit := 1000 }]),
            (1, [{ rwo := { Count := 0, Items := [] }, isLastPage := true, returned := true }])) :=
  ⟨(ReadWalker_validates_page_size fakeService "graph" 1001
      (fun _ _ (n : Nat) => (true, n + 1))
      { tables := ["graph"], pages := [{ Count := some 0, Items := [] }], puts := [] } [] 0 []).1
      (Or.inr (by decide)),
    ((ReadWalker_validates_page_size fakeService "graph" 1000
      (fun _ _ (n : Nat) => (true, n + 1))
      { tables := ["graph"], pages := [{ Count := some 0, Items := [] }], puts := [] } [] 0 []).2
      ⟨by decide, by decide⟩).2⟩

/-- C4. For a page size from 1 to 1000 the scan request `ReadWalker` sends has
`Limit` equal to the page size; for page size 0 `ReadWalker` behaves as for
page size 100 and the request has `Limit` 100. `Limit` is 100 for page size 0
and the page size itself for every other value. -/
theorem ReadWalker_limit_is_page_size {σ κ : Type} (svc : Service σ) (name : String)
    (walk : ReadWalkerOutput → Bool → κ → Bool × κ) (s : σ) (calls : List Call) (k : κ) :
    (∀ pageSize : Int, 1 ≤ pageSize → pageSize ≤ 1000 →
        Table.ReadWalker { Name := name, svc := recording svc } { PageSize := pageSize }
            walk (s, calls) k
          = (svc.ScanPages { TableName := name, Limit := pageSize } (pageFn walk) s k).map
              (fun r => (r.1, (r.2.1,
                calls ++ [Call.ScanPages { TableName := name, Limit := pageSize }]), r.2.2)))
      ∧ Table.ReadWalker { Name := name, svc := recording svc } { PageSize := 0 }
            walk (s, calls) k
          = Table.ReadWalker { Name := name, svc := recording svc } { PageSize := 100 }
              walk (s, calls) k
      ∧ Table.ReadWalker { Name := name, svc := recording svc } { PageSize := 0 }
            walk (s, calls) k
          = (svc.ScanPages { TableName := name, Limit := 100 } (pageFn walk) s k).map
              (fun r => (r.1, (r.2.1,
                calls ++ [Call.ScanPages { TableName := name, Limit := 100 }]), r.2.2))
      ∧ ReadWalkerInput.Limit { PageSize := 0 } = 100
      ∧ (∀ pageSize : Int, pageSize ≠ 0 →
          ReadWalkerInput.Limit { PageSize := pageSize } = pageSize) := by
  refine ⟨?_, rfl, rfl, rfl, ?_⟩
  · intro pageSize h1 h2
    have h0 : ¬ pageSize < 0 := by omega
    have h3 : ¬ pageSize > 1000 := by omega
    have h4 : pageSize ≠ 0 := by omega
    simp [Table.ReadWalker, Validate.Struct, ReadWalkerInput.Limit, h0, h3, h4, recording]
  · intro pageSize h
    simp [ReadWalkerInput.Limit, h]

/-- C4, on the in-memory store with page size 25. -/
theorem ReadWalker_limit_is_page_size_witness :
    Table.ReadWalker { Name := "graph", svc := recording fakeService } { PageSize := 25 }
        (fun _ _ (n : Nat) => (true, n + 1))
        ({ tables := ["graph"], pages := [{ Count := some 0, Items := [] }], puts := [] }, []) 0
      = (fakeService.ScanPages { TableName := "graph", Limit := 25 }
          (pageFn (fun _ _ (n : Nat) => (true, n + 1)))
          { tables := ["graph"], pages := [{ Count := some 0, Items := [] }], puts := [] } 0).map
          (fun r => (r.1, (r.2.1,
            [] ++ [Call.ScanPages { TableName := "graph", Limit := 25 }]), r.2.2)) :=
  (ReadWalker_limit_is_page_size fakeService "graph" (fun _ _ (n : Nat) => (true, n + 1))
    { tables := ["graph"], pages := [{ Count := some 0, Items := [] }], puts := [] } [] 0).1
    25 (by decide) (by decide)

theorem scanPagesLoop_recorded {κ : Type} (walk : ReadWalkerOutput → Bool → κ → Bool × κ) :
    ∀ (pages : List ScanOutput) (k : κ) (pre : List Invocation),
      pages ≠ [] → (∀ p ∈ pages, ∃ c, p.Count = some c) →
      ∃ k1 log,
        scanPagesLoop (pageFn (recordingWalk walk)) pages (k, pre) = some (k1, pre ++ log)
        ∧ 1 ≤ log.length ∧ log.length ≤ pages.length
        ∧ (∀ i inv, log[i]? = some inv →
            ∃ page, pages[i]? = some page ∧ page.Count = some inv.rwo.Count
              ∧ page.Items = inv.rwo.Items
              ∧ (inv.isLastPage = true ↔ i + 1 = pages.length))
        ∧ (∀ i inv, log[i]? = some inv → i + 1 < log.length → inv.returned = true)
        ∧ (log.length < pages.length →
            ∃ inv, log[log.length - 1]? = some inv ∧ inv.returned = false)
        ∧ (∀ page c, pages[0]? = some page → page.Count = some c →
            (walk { Count := c, Items := page.Items } (decide (pages.length = 1)) k).1 = false →
            log.length = 1) := by
  intro pages
  induction pages with
  | nil => intro k pre h; exact absurd rfl h
  | cons p rest ih =>
    intro k pre _ hc
    obtain ⟨c, hpc⟩ := hc p (List.mem_cons_self _ _)
    cases rest with
    | nil =>
      refine ⟨(walk { Count := c, Items := p.Items } true k).2,
        [{ rwo := { Count := c, Items := p.Items }, isLastPage := true,
           returned := (walk { Count := c, Items := p.Items } true k).1 }], ?_, ?_, ?_, ?_, ?_, ?_, ?_⟩
      · simp [scanPagesLoop, pageFn, hpc, recordingWalk]
      · simp
      · simp
      · intro i inv hi
        cases i with
        | zero =>
          simp at hi
          subst hi
          exact ⟨p, by simp, hpc, rfl, by simp⟩
        | succ j => simp at hi
      · intro i inv _ hlt
        simp at hlt
      · intro hlt
        simp at hlt
      · intro _ _ _ _ _
        rfl
    | cons q rest2 =>
      have hc2 : ∀ x ∈ q :: rest2, ∃ c, x.Count = some c :=
        fun x hx => hc x (List.mem_cons_of_mem _ hx)
      cases hb : (walk { Count := c, Items := p.Items } false k).1 with
      | false =>
        refine ⟨(walk { Count := c, Items := p.Items } false k).2,
          [{ rwo := { Count := c, Items := p.Items }, isLastPage := false,
             returned := false }], ?_, ?_, ?_, ?_, ?_, ?_, ?_⟩
        · simp [scanPagesLoop, pageFn, hpc, recordingWalk, hb]
        · simp
        · simp
        · intro i inv hi
          cases i with
          | zero =>
            simp at hi
            subst hi
            exact ⟨p, by simp, hpc, rfl, by simp⟩
          | succ j => simp at hi
        · intro i inv _ hlt
          simp at hlt
        · intro _
          exact ⟨Invocation.mk { Count := c, Items := p.Items } false false, by simp, rfl⟩
        · intro _ _ _ _ _
          rfl
      | true =>
        obtain ⟨k1, log, hrun, h1, h2, h3, h4, h5, _⟩ :=
          ih (walk { Count := c, Items := p.Items } false k).2
            (pre ++ [{ rwo := { Count := c, Items := p.Items }, isLastPage := false,
                       returned := true }])
            (List.cons_ne_nil _ _) hc2
        refine ⟨k1,
          { rwo := { Count := c, Items := p.Items }, isLastPage := false, returned := true } :: log,
          ?_, ?_, ?_, ?_, ?_, ?_, ?_⟩
        · simp only [scanPagesLoop, pageFn, hpc, recordingWalk, hb]
          rw [hrun]
          simp
        · simp
        · simp only [List.length_cons] at h2 ⊢
          omega
        · intro i inv hi
          cases i with
          | zero =>
            simp at hi
            subst hi
            exact ⟨p, by simp, hpc, rfl, by simp⟩
          | succ j =>
            simp only [List.getElem?_cons_succ] at hi
            obtain ⟨page, hp1, hp2, hp3, hp4⟩ := h3 j inv hi
            refine ⟨page, by simpa using hp1, hp2, hp3, ?_⟩
            rw [hp4]
            simp only [List.length_cons]
            omega
        · intro i inv hi hlt
          cases i with
          | zero =>
            simp at hi
            subst hi
            rfl
          | succ j =>
            simp only [List.getElem?_cons_succ] at hi
            simp only [List.length_cons] at hlt
            exact h4 j inv hi (by omega)
        · intro hlt
          simp only [List.length_cons] at hlt
          obtain ⟨inv, hi, hr⟩ := h5 (by simp only [List.length_cons]; omega)
          refine ⟨inv, ?_, hr⟩
          have e : ∀ x : Invocation, (x :: log).length - 1 = (log.length - 1) + 1 := by
            intro x
            simp only [List.length_cons]
            omega
          rw [e, List.getElem?_cons_succ]
          exact hi
        · intro page c2 hp0 hc0 hw
          simp only [List.getElem?_cons_zero, Option.some.injEq] at hp0
          subst hp0
          rw [hpc] at hc0
          cases hc0
          have hd : decide ((p :: q :: rest2).length = 1) = false := by simp
          rw [hd, hb] at hw
          cases hw

/-- C5. On a store that paginates, for a valid page size and a non-empty
sequence of pages each carrying its count, `ReadWalker` returns without error
after invoking the callback on an initial run of the pages: once per page, in
order, with that page's `Count` and `Items`, with `isLastPage` true exactly on
the final page of the store. Every invocation but the last one made returned
true, and when pages are left over the last one made returned false; when the
callback returns false on the first page it has been invoked exactly once. -/
theorem ReadWalker_walks_pages {κ : Type} (name : String) (pageSize : Int)
    (walk : ReadWalkerOutput → Bool → κ → Bool × κ) (store : FakeStore) (k : κ)
    (hvalid : 0 ≤ pageSize ∧ pageSize ≤ 1000)
    (htable : name ∈ store.tables)
    (hpages : store.pages ≠ [])
    (hcount : ∀ p ∈ store.pages, ∃ c, p.Count = some c) :
    ∃ k1 log,
      Table.ReadWalker { Name := name, svc := fakeService } { PageSize := pageSize }
          (recordingWalk walk) store (k, []) = some (none, store, (k1, log))
      ∧ 1 ≤ log.length ∧ log.length ≤ store.pages.length
      ∧ (∀ i inv, log[i]? = some inv →
          ∃ page, store.pages[i]? = some page ∧ page.Count = some inv.rwo.Count
            ∧ page.Items = inv.rwo.Items
            ∧ (inv.isLastPage = true ↔ i + 1 = store.pages.length))
      ∧ (∀ i inv, log[i]? = some inv → i + 1 < log.length → inv.returned = true)
      ∧ (log.length < store.pages.length →
          ∃ inv, log[log.length - 1]? = some inv ∧ inv.returned = false)
      ∧ (∀ page c, store.pages[0]? = some page → page.Count = some c →
          (walk { Count := c, Items := page.Items } (decide (store.pages.length = 1)) k).1
            = false →
          log.length = 1) := by
  obtain ⟨k1, log, hrun, h1, h2, h3, h4, h5, h6⟩ :=
    scanPagesLoop_recorded walk store.pages k [] hpages hcount
  have h0 : ¬ pageSize < 0 := by omega
  have h7 : ¬ pageSize > 1000 := by omega
  refine ⟨k1, log, ?_, h1, h2, h3, h4, h5, h6⟩
  simp only [Table.ReadWalker, Validate.Struct, h0, h7, if_false, fakeService, htable, if_true,
    hrun, Option.map, List.nil_append]

/-- C5, on three pages with a callback that stops at the second. -/
theorem ReadWalker_walks_pages_witness :
    ∃ k1 log,
      Table.ReadWalker { Name := "graph", svc := fakeService } { PageSize := 2 }
          (recordingWalk (fun rwo _ (n : Int) => (decide (n + rwo.Count < 3), n + rwo.Count)))
          { tables := ["graph"],
            pages := [{ Count := some 2, Items := [] }, { Count := some 2, Items := [] },
              { Count := some 1, Items := [] }],
            puts := [] }
          (0, [])
        = some (none,
            { tables := ["graph"],
              pages := [{ Count := some 2, Items := [] }, { Count := some 2, Items := [] },
                { Count := some 1, Items := [] }],
              puts := [] },
            (k1, log))
      ∧ log.length = 2 := by
  obtain ⟨k1, log, hrun, _, _, _, _, _, _⟩ :=
    ReadWalker_walks_pages "graph" 2
      (fun rwo _ (n : Int) => (decide (n + rwo.Count < 3), n + rwo.Count))
      { tables := ["graph"],
        pages := [{ Count := some 2, Items := [] }, { Count := some 2, Items := [] },
          { Count := some 1, Items := [] }],
        puts := [] }
      0 ⟨by decide, by decide⟩ (by decide) (by decide)
      (by
        intro p hp
        simp only [List.mem_cons, List.mem_singleton, List.not_mem_nil, or_false] at hp
        rcases hp with rfl | rfl | rfl <;> exact ⟨_, rfl⟩)
  refine ⟨k1, log, hrun, ?_⟩
  have hval : Table.ReadWalker { Name := "graph", svc := fakeService } { PageSize := 2 }
      (recordingWalk (fun rwo _ (n : Int) => (decide (n + rwo.Count < 3), n + rwo.Count)))
      { tables := ["graph"],
        pages := [{ Count := some 2, Items := [] }, { Count := some 2, Items := [] },
          { Count := some 1, Items := [] }],
        puts := [] }
      (0, [])
      = some (none,
          { tables := ["graph"],
            pages := [{ Count := some 2, Items := [] }, { Count := some 2, Items := [] },
              { Count := some 1, Items := [] }],
            puts := [] },
          (4, [{ rwo := { Count := 2, Items := [] }, isLastPage := false, returned := true },
               { rwo := { Count := 2, Items := [] }, isLastPage := false, returned := false }])) := by
    decide
  rw [hval] at hrun
  simp only [Option.some.injEq, Prod.mk.injEq, true_and] at hrun
  rw [← hrun.2]
  rfl

end table

namespace dynamo

open table

/-! ## Confirm -/

theorem ReadString_ends_with_delim (delim : Char) :
    ∀ input : List Char, (ReadString delim input).2.1 = false →
      ∃ body, (ReadString delim input).1 = body ++ [delim] := by
  intro input
  induction input with
  | nil => intro h; simp [ReadString] at h
  | cons c cs ih =>
    intro h
    by_cases e : c = delim
    · subst e
      exact ⟨[], by simp [ReadString]⟩
    · simp only [ReadString, e, if_false] at h ⊢
      obtain ⟨body, hb⟩ := ih h
      exact ⟨c :: body, by rw [hb]; rfl⟩

theorem ToLower_line_ne (body : List Char) (answer : String)
    (h : answer.data.getLast? ≠ some '\n') :
    ToLower (String.mk (body ++ ['\n'])) ≠ answer := by
  intro e
  apply h
  rw [← e]
  simp [ToLower]

/-- C9. `Confirm` answers false to the lines "y", "yes" and "YES" ended with
Enter, and returns true on no input at all; the `init` command run against a
present table with the answer "y" makes the one `DescribeTable` call of
`Exists` and returns, neither deleting nor creating the table. -/
theorem Confirm_never_true :
    Confirm "replace?" ['y', '\n'] = some (false, [])
      ∧ Confirm "replace?" ['y', 'e', 's', '\n'] = some (false, [])
      ∧ Confirm "replace?" ['Y', 'E', 'S', '\n'] = some (false, [])
      ∧ (∀ (message : String) (stdin rest : List Char),
          Confirm message stdin ≠ some (true, rest))
      ∧ initAction { Name := "graph", svc := recording fakeService }
            ({ tables := ["graph"], pages := [], puts := [] }, []) ['y', '\n']
          = some (none,
              ({ tables := ["graph"], pages := [], puts := [] },
                [Call.DescribeTable { TableName := "graph" }]),
              []) := by
  refine ⟨by decide, by decide, by decide, ?_, by decide⟩
  intro message stdin rest h
  unfold Confirm at h
  by_cases herr : (ReadString '\n' stdin).2.1 = true
  · simp [herr] at h
  · have hf : (ReadString '\n' stdin).2.1 = false := by simpa using herr
    obtain ⟨body, hb⟩ := ReadString_ends_with_delim '\n' stdin hf
    simp only [hf, hb] at h
    have h1 := ToLower_line_ne body "y" (by decide)
    have h2 := ToLower_line_ne body "yes" (by decide)
    simp [h1, h2] at h

/-! ## The load command -/

theorem lookup_mapSet_self (m : Item) (key : String) (v : Option AttributeValue) :
    (mapSet m key v).lookup key = some v := by
  induction m with
  | nil => simp [mapSet, List.lookup]
  | cons p rest ih =>
    obtain ⟨k, x⟩ := p
    by_cases e : k = key
    · subst e
      simp [mapSet, List.lookup]
    · have hf : (key == k) = false := by simpa using fun h : key = k => e h.symm
      simp only [mapSet, e, if_false, List.lookup, hf]
      exact ih

theorem lookup_mapSet_ne (m : Item) (key other : String) (v : Option AttributeValue)
    (hne : other ≠ key) : (mapSet m key v).lookup other = m.lookup other := by
  induction m with
  | nil =>
    have hf : (other == key) = false := by simpa using hne
    simp [mapSet, List.lookup, hf]
  | cons p rest ih =>
    obtain ⟨k, x⟩ := p
    by_cases e : k = key
    · subst e
      have hf : (other == k) = false := by simpa using hne
      simp [mapSet, List.lookup, hf]
    · simp only [mapSet, e, if_false, List.lookup]
      rw [ih]

theorem keys_mapSet (m : Item) (key : String) (v : Option AttributeValue) (x : String) :
    x ∈ (mapSet m key v).map Prod.fst ↔ x = key ∨ x ∈ m.map Prod.fst := by
  induction m with
  | nil => simp [mapSet]
  | cons p rest ih =>
    obtain ⟨k, y⟩ := p
    by_cases e : k = key
    · subst e
      simp [mapSet]
    · simp only [mapSet, e, if_false, List.map_cons, List.mem_cons, ih]
      tauto

theorem nodup_mapSet (m : Item) (key : String) (v : Option AttributeValue)
    (h : (m.map Prod.fst).Nodup) : ((mapSet m key v).map Prod.fst).Nodup := by
  induction m with
  | nil => simp [mapSet]
  | cons p rest ih =>
    obtain ⟨k, y⟩ := p
    simp only [List.map_cons, List.nodup_cons] at h
    by_cases e : k = key
    · subst e
      simpa [mapSet] using h
    · simp only [mapSet, e, if_false, List.map_cons, List.nodup_cons]
      refine ⟨?_, ih h.2⟩
      rw [keys_mapSet]
      rintro (h1 | h1)
      · exact e h1
      · exact h.1 h1

theorem IndexOfFrom_of_mem (item : String) :
    ∀ (slice : List String) (i : Nat), item ∈ slice →
      ∃ n : Nat, IndexOfFrom item slice i = ((i + n : Nat) : Int) ∧ slice[n]? = some item := by
  intro slice
  induction slice with
  | nil => intro i h; simp at h
  | cons d rest ih =>
    intro i h
    by_cases e : d = item
    · exact ⟨0, by simp [IndexOfFrom, e], by simp [e]⟩
    · have hm : item ∈ rest := by
        rcases List.mem_cons.1 h with h1 | h1
        · exact absurd h1.symm e
        · exact h1
      obtain ⟨n, hn1, hn2⟩ := ih (i + 1) hm
      refine ⟨n + 1, ?_, by simpa using hn2⟩
      simp only [IndexOfFrom, e, if_false, hn1]
      congr 1
      omega

theorem IndexOf_of_mem (slice : List String) (item : String) (h : item ∈ slice) :
    ∃ n : Nat, IndexOf slice item = (n : Int) ∧ slice[n]? = some item := by
  obtain ⟨n, h1, h2⟩ := IndexOfFrom_of_mem item slice 0 h
  exact ⟨n, by simpa [IndexOf] using h1, h2⟩

theorem getElem?_lt_of_some {α : Type} (l : List α) (i : Nat) (x : α)
    (h : l[i]? = some x) : i < l.length := by
  by_contra hc
  rw [List.getElem?_eq_none (by omega)] at h
  cases h

theorem loadExtras_spec (headers : List String) (a b : Int) (hnd : headers.Nodup) :
    ∀ (record : List String) (i : Nat) (item : Item),
      i + record.length ≤ headers.length →
      ∃ out, loadExtras headers a b record i item = some out
        ∧ (∀ j h v, record[j]? = some v → headers[i + j]? = some h →
            ((i + j : Nat) : Int) ≠ a → ((i + j : Nat) : Int) ≠ b →
            out.lookup h = some (some { S := some v }))
        ∧ (∀ key, (∀ j, j < record.length → headers[i + j]? = some key →
              ((i + j : Nat) : Int) = a ∨ ((i + j : Nat) : Int) = b) →
            out.lookup key = item.lookup key)
        ∧ ((item.map Prod.fst).Nodup → (out.map Prod.fst).Nodup)
        ∧ (∀ key ∈ out.map Prod.fst, key ∈ item.map Prod.fst ∨
            ∃ j, j < record.length ∧ headers[i + j]? = some key ∧
              ((i + j : Nat) : Int) ≠ a ∧ ((i + j : Nat) : Int) ≠ b) := by
  intro record
  induction record with
  | nil =>
    intro i item _
    refine ⟨item, rfl, ?_, fun _ _ => rfl, fun h => h, fun key hk => Or.inl hk⟩
    intro j h v hj
    simp at hj
  | cons value rest ih =>
    intro i item hlen
    simp only [List.length_cons] at hlen
    have shift : ∀ j, i + (j + 1) = i + 1 + j := fun j => by omega
    by_cases hcond : ((i : Int) ≠ a ∧ (i : Int) ≠ b)
    · cases hh : headers[i]? with
      | none =>
        rw [List.getElem?_eq_none_iff] at hh
        omega
      | some header =>
        obtain ⟨out, hrun, p1, p2, p3, p4⟩ :=
          ih (i + 1) (mapSet item header (some { S := some value })) (by omega)
        refine ⟨out, ?_, ?_, ?_, ?_, ?_⟩
        · simp only [loadExtras, if_pos hcond, hh]
          exact hrun
        · intro j h v hj hhj na nb
          cases j with
          | zero =>
            simp only [List.getElem?_cons_zero, Option.some.injEq] at hj
            rw [Nat.add_zero, hh] at hhj
            cases hhj
            subst hj
            rw [p2 header ?_, lookup_mapSet_self]
            intro j _ hj2
            exfalso
            have := List.getElem?_inj (by omega : i < headers.length) hnd (hh.trans hj2.symm)
            omega
          | succ j2 =>
            simp only [List.getElem?_cons_succ] at hj
            rw [shift] at hhj na nb
            exact p1 j2 h v hj hhj na nb
        · intro key hkey
          have hne : key ≠ header := by
            intro e
            subst e
            have := hkey 0 (by simp) (by rw [Nat.add_zero]; exact hh)
            rw [Nat.add_zero] at this
            tauto
          rw [p2 key ?_, lookup_mapSet_ne _ _ _ _ hne]
          intro j hj hj2
          have := hkey (j + 1) (by simp only [List.length_cons]; omega)
            (by rw [shift]; exact hj2)
          rw [shift] at this
          exact this
        · intro h
          exact p3 (nodup_mapSet _ _ _ h)
        · intro key hk
          rcases p4 key hk with h1 | ⟨j, hj, hj2, hj3, hj4⟩
          · rw [keys_mapSet] at h1
            rcases h1 with h1 | h1
            · subst h1
              exact Or.inr ⟨0, by simp, by rw [Nat.add_zero]; exact hh,
                by rw [Nat.add_zero]; exact hcond.1, by rw [Nat.add_zero]; exact hcond.2⟩
            · exact Or.inl h1
          · refine Or.inr ⟨j + 1, by simp only [List.length_cons]; omega, ?_, ?_, ?_⟩
            · rw [shift]; exact hj2
            · rw [shift]; exact hj3
            · rw [shift]; exact hj4
    · obtain ⟨out, hrun, p1, p2, p3, p4⟩ := ih (i + 1) item (by omega)
      refine ⟨out, ?_, ?_, ?_, p3, ?_⟩
      · simp only [loadExtras, if_neg hcond]
        exact hrun
      · intro j h v hj hhj na nb
        cases j with
        | zero =>
          rw [Nat.add_zero] at na nb
          exact absurd ⟨na, nb⟩ hcond
        | succ j2 =>
          simp only [List.getElem?_cons_succ] at hj
          rw [shift] at hhj na nb
          exact p1 j2 h v hj hhj na nb
      · intro key hkey
        apply p2
        intro j hj hj2
        have := hkey (j + 1) (by simp only [List.length_cons]; omega)
          (by rw [shift]; exact hj2)
        rw [shift] at this
        exact this
      · intro key hk
        rcases p4 key hk with h1 | ⟨j, hj, hj2, hj3, hj4⟩
        · exact Or.inl h1
        · refine Or.inr ⟨j + 1, by simp only [List.length_cons]; omega, ?_, ?_, ?_⟩
          · rw [shift]; exact hj2
          · rw [shift]; exact hj3
          · rw [shift]; exact hj4

/-- C10, as stated, fails: a third column headed "source-key" overwrites the
source key taken from the column "source". -/
theorem loadItem_key_column_collides :
    loadItem ["source", "target", "source-key"] ["A", "B", "C"]
        = some [("source-key", some { S := some "C" }), ("target-key", some { S := some "B" })]
      ∧ ¬ (∃ item, loadItem ["source", "target", "source-key"] ["A", "B", "C"] = some item
          ∧ item.lookup SourceKeyAttribute = some (some { S := some "A" })) := by
  refine ⟨by decide, ?_⟩
  rintro ⟨item, h1, h2⟩
  have h3 : loadItem ["source", "target", "source-key"] ["A", "B", "C"]
      = some [("source-key", some { S := some "C" }), ("target-key", some { S := some "B" })] := by
    decide
  rw [h3] at h1
  cases h1
  revert h2
  decide

/-- Two columns with one header name: the later column overwrites the earlier
one, whose value is lost. -/
theorem loadItem_duplicate_header :
    loadItem ["source", "target", "w", "w"] ["A", "B", "1", "2"]
      = some [("source-key", some { S := some "A" }), ("target-key", some { S := some "B" }),
          ("w", some { S := some "2" })] := by
  decide

/-- Without a column "source" the index is -1 and building the record panics. -/
theorem loadItem_missing_column :
    IndexOf ["from", "target"] "source" = -1
      ∧ loadItem ["from", "target"] ["A", "B"] = none := by
  decide

/-- C10, amended. For a header row whose names are pairwise distinct, which has
a column "source" and a column "target" and no column named source-key or
target-key, and a data row of the same length, the load command builds a
record that maps source-key to the value in the column "source", target-key to
the value in the column "target", and the header name of every other column to
that column's value; the record's keys are pairwise distinct and are exactly
source-key, target-key and the header names of the other columns. -/
theorem loadItem_maps_columns (headers record : List String)
    (hlen : record.length = headers.length)
    (hsrc : "source" ∈ headers) (htgt : "target" ∈ headers)
    (hnd : headers.Nodup)
    (hks : SourceKeyAttribute ∉ headers) (hkt : TargetKeyAttribute ∉ headers) :
    ∃ item, loadItem headers record = some item
      ∧ (∀ (i : Nat) (v : String), headers[i]? = some "source" → record[i]? = some v →
          item.lookup SourceKeyAttribute = some (some { S := some v }))
      ∧ (∀ (i : Nat) (v : String), headers[i]? = some "target" → record[i]? = some v →
          item.lookup TargetKeyAttribute = some (some { S := some v }))
      ∧ (∀ (i : Nat) (h v : String), headers[i]? = some h → h ≠ "source" → h ≠ "target" →
          record[i]? = some v → item.lookup h = some (some { S := some v }))
      ∧ (item.map Prod.fst).Nodup
      ∧ (∀ key ∈ item.map Prod.fst,
          key = SourceKeyAttribute ∨ key = TargetKeyAttribute ∨
            (key ∈ headers ∧ key ≠ "source" ∧ key ≠ "target")) := by
  obtain ⟨na, hsi, hna⟩ := IndexOf_of_mem headers "source" hsrc
  obtain ⟨nb, hti, hnb⟩ := IndexOf_of_mem headers "target" htgt
  have hna_lt := getElem?_lt_of_some _ _ _ hna
  have hnb_lt := getElem?_lt_of_some _ _ _ hnb
  cases hra : record[na]? with
  | none =>
    rw [List.getElem?_eq_none_iff] at hra
    omega
  | some src =>
    cases hrb : record[nb]? with
    | none =>
      rw [List.getElem?_eq_none_iff] at hrb
      omega
    | some tgt =>
      obtain ⟨out, hrun, p1, p2, p3, p4⟩ :=
        loadExtras_spec headers (na : Int) (nb : Int) hnd record 0
          [ (SourceKeyAttribute, some { S := some src }),
            (TargetKeyAttribute, some { S := some tgt }) ]
          (by omega)
      simp only [Nat.zero_add] at p1 p2 p4
      have hkeep : ∀ key, key ∉ headers → out.lookup key
          = List.lookup key [ (SourceKeyAttribute, some { S := some src }),
              (TargetKeyAttribute, some (AttributeValue.mk (some tgt))) ] := by
        intro key hk
        apply p2
        intro j _ hj
        exact absurd (List.getElem?_mem hj) hk
      refine ⟨out, ?_, ?_, ?_, ?_, ?_, ?_⟩
      · have ia : index record (na : Int) = some src := by
          simp [index, hra]
        have ib : index record (nb : Int) = some tgt := by
          simp [index, hrb]
        simp only [loadItem, hsi, hti, ia, ib]
        exact hrun
      · intro i v hi hv
        have e : na = i := List.getElem?_inj hna_lt hnd (hna.trans hi.symm)
        subst e
        rw [hra] at hv
        cases hv
        rw [hkeep _ hks]
        rfl
      · intro i v hi hv
        have e : nb = i := List.getElem?_inj hnb_lt hnd (hnb.trans hi.symm)
        subst e
        rw [hrb] at hv
        cases hv
        rw [hkeep _ hkt]
        rfl
      · intro i h v hi h1 h2 hv
        refine p1 i h v hv hi ?_ ?_
        · intro e
          have e2 : i = na := by omega
          subst e2
          rw [hna] at hi
          cases hi
          exact h1 rfl
        · intro e
          have e2 : i = nb := by omega
          subst e2
          rw [hnb] at hi
          cases hi
          exact h2 rfl
      · apply p3
        simp only [List.map_cons, List.map_nil]
        decide
      · intro key hk
        rcases p4 key hk with h1 | ⟨j, _, hj2, hj3, hj4⟩
        · simp only [List.map_cons, List.map_nil, List.mem_cons, List.mem_singleton,
            List.not_mem_nil, or_false] at h1
          rcases h1 with h1 | h1
          · exact Or.inl h1
          · exact Or.inr (Or.inl h1)
        · refine Or.inr (Or.inr ⟨List.getElem?_mem hj2, ?_, ?_⟩)
          · intro e
            subst e
            have := List.getElem?_inj hna_lt hnd (hna.trans hj2.symm)
            omega
          · intro e
            subst e
            have := List.getElem?_inj hnb_lt hnd (hnb.trans hj2.symm)
            omega

/-- C10 amended, on the row 3,B,A under the headers weight,target,source. -/
theorem loadItem_maps_columns_witness :
    ∃ item, loadItem ["weight", "target", "source"] ["3", "B", "A"] = some item
      ∧ item.lookup SourceKeyAttribute = some (some { S := some "A" })
      ∧ item.lookup TargetKeyAttribute = some (some { S := some "B" })
      ∧ item.lookup "weight" = some (some { S := some "3" }) := by
  obtain ⟨item, h1, h2, h3, h4, _, _⟩ :=
    loadItem_maps_columns ["weight", "target", "source"] ["3", "B", "A"]
      (by decide) (by decide) (by decide) (by decide) (by decide) (by decide)
  exact ⟨item, h1, h2 2 "A" rfl rfl, h3 1 "B" rfl rfl,
    h4 0 "weight" "3" rfl (by decide) (by decide) rfl⟩

end dynamo
